import Mathlib

/-!
Verification of the SeeClaw agent core against its specification.

The definitions below are shallow embeddings of the Rust and TypeScript
sources of the repository (the SoM grid module, the DPI coordinate mapper,
the YOLO post-processing, the executor, the SSE stream parser, and the
MobX agent store).  Rust `u32`/`i32` values are modelled as `Nat`/`Int`,
`f32`/`f64` values as exact rationals `ℚ`, strings as `List Char`, and
fallible Rust code as `Option`/`Except`.  Components whose implementation
is not present in the repository (the engine run loop) are modelled from
the specification text and are marked as such in their doc comments.
-/

namespace SeeClaw

/-! ### SoM grid module (src/vision/som_grid.rs) -/

/-- Column letters used by `draw_som_grid`: `A,B,…,Z,AA,AB,…`.
Rust source: `if c < 26 { char::from(b'A' + c as u8) } else { format!("A{}", char::from(b'A' + (c - 26) as u8)) }`.
The `% 256` models the `as u8` truncating cast on the column index. -/
def col_label (c : Nat) : List Char :=
  if c < 26 then [Char.ofNat ((65 + c % 256) % 256)]
  else ['A', Char.ofNat ((65 + (c - 26) % 256) % 256)]

/-- Decimal digit sequence of a natural number, as produced by Rust's
`format!` for an unsigned integer (most significant digit first). -/
def natDigits (n : Nat) : List Char :=
  if n < 10 then [Char.ofNat (48 + n)]
  else natDigits (n / 10) ++ [Char.ofNat (48 + n % 10)]
termination_by n
decreasing_by exact Nat.div_lt_self (by omega) (by omega)

/-- The label drawn for cell `(col, row)` by `draw_som_grid`:
`format!("{}{}", col_label(col), row + 1)` (rows are 1-based in the label). -/
def gridLabel (col row : Nat) : List Char :=
  col_label col ++ natDigits (row + 1)

/-- Rust `str::trim`: strip leading and trailing whitespace.
(The labels handled here are ASCII, so ASCII whitespace suffices.) -/
def rustTrim (l : List Char) : List Char :=
  ((l.dropWhile Char.isWhitespace).reverse.dropWhile Char.isWhitespace).reverse

/-- Rust `u32::checked_sub`. -/
def checkedSub (a b : Nat) : Option Nat :=
  if a < b then none else some (a - b)

/-- Rust `str::parse::<u32>`: an optional leading `+`, then one or more
ASCII digits, failing on anything else or on values exceeding `u32::MAX`. -/
def parseU32 (l : List Char) : Option Nat :=
  let ds := if l.head? = some '+' then l.tail else l
  if ds.isEmpty then none
  else if ds.all Char.isDigit then
    let n := ds.foldl (fun acc c => acc * 10 + (c.toNat - 48)) 0
    if n < 2 ^ 32 then some n else none
  else none

/-- Zero-indexed grid coordinate (src/vision/som_grid.rs `GridCoord`). -/
structure GridCoord where
  col : Nat
  row : Nat
deriving DecidableEq

/-- `parse_grid_label` from src/vision/som_grid.rs: parse `"C4"` into
`GridCoord { col: 2, row: 3 }`.  `str::to_uppercase` is modelled by
`Char.toUpper`, which agrees with it on ASCII input; the Rust `?` chains
are rendered as explicit matches on `Option`. -/
def parse_grid_label (label : List Char) : Option GridCoord :=
  let l := (rustTrim label).map Char.toUpper
  let colStr := l.takeWhile Char.isAlpha
  let rowStr := l.dropWhile Char.isAlpha
  let colOpt : Option Nat :=
    if colStr.length = 1 then
      match colStr.head? with
      | none => none
      | some c => checkedSub c.toNat 65
    else
      match colStr.get? 1 with
      | none => none
      | some c => some (26 + (c.toNat - 65))
  match colOpt with
  | none => none
  | some col =>
    match parseU32 rowStr with
    | none => none
    | some n =>
      match checkedSub n 1 with
      | none => none
      | some row => some ⟨col, row⟩

/-- `grid_to_pixel` from src/vision/som_grid.rs: center of a grid cell in
logical pixel coordinates (pre-DPI). -/
def grid_to_pixel (coord : GridCoord) (img_w img_h : Nat) (grid_n : Nat) : ℚ × ℚ :=
  let cell_w : ℚ := (img_w : ℚ) / (grid_n : ℚ)
  let cell_h : ℚ := (img_h : ℚ) / (grid_n : ℚ)
  ((coord.col : ℚ) * cell_w + cell_w / 2, (coord.row : ℚ) * cell_h + cell_h / 2)

/-! ### Capture metadata and coordinate mapping (src/perception/capture.rs, src/executor/coords.rs) -/

/-- `ScreenshotMeta` from src/perception/capture.rs. -/
structure ScreenshotMeta where
  logical_width : Nat
  logical_height : Nat
  scale_factor : ℚ
  monitor_x : Int
  monitor_y : Int

/-- `PhysicalPoint` from src/executor/coords.rs. -/
structure PhysicalPoint where
  x : Int
  y : Int
deriving DecidableEq

/-- Rust `f64::round`: round half away from zero. -/
def rustRound (q : ℚ) : Int :=
  if 0 ≤ q then ⌊q + 1 / 2⌋ else ⌈q - 1 / 2⌉

/-- Normalized bounding box `[xmin, ymin, xmax, ymax]` (the `&[f32; 4]`
argument of `bbox_to_physical`). -/
structure NormBBox where
  xmin : ℚ
  ymin : ℚ
  xmax : ℚ
  ymax : ℚ

/-- `bbox_to_physical` from src/executor/coords.rs: normalized bbox center →
logical pixels → DPI-scaled physical pixels → plus monitor origin. -/
def bbox_to_physical (bbox : NormBBox) (meta : ScreenshotMeta) : PhysicalPoint :=
  let cx_norm := (bbox.xmin + bbox.xmax) / 2
  let cy_norm := (bbox.ymin + bbox.ymax) / 2
  let cx_logical := cx_norm * (meta.logical_width : ℚ)
  let cy_logical := cy_norm * (meta.logical_height : ℚ)
  let cx_physical := cx_logical * meta.scale_factor
  let cy_physical := cy_logical * meta.scale_factor
  ⟨meta.monitor_x + rustRound cx_physical, meta.monitor_y + rustRound cy_physical⟩

/-- `grid_cell_to_physical` from src/executor/coords.rs: parse a SoM grid
label, take the cell center via `grid_to_pixel`, then scale and offset. -/
def grid_cell_to_physical (label : List Char) (meta : ScreenshotMeta) (grid_n : Nat) :
    Option PhysicalPoint :=
  match parse_grid_label label with
  | none => none
  | some coord =>
    let p := grid_to_pixel coord meta.logical_width meta.logical_height grid_n
    some ⟨meta.monitor_x + rustRound (p.1 * meta.scale_factor),
          meta.monitor_y + rustRound (p.2 * meta.scale_factor)⟩

/-- `BBox` from src/vision/postprocess.rs. -/
structure BBox where
  id : Nat
  xmin : ℚ
  ymin : ℚ
  xmax : ℚ
  ymax : ℚ
  confidence : ℚ
  class_id : Nat
deriving DecidableEq

/-- Rust `f32 as u32` cast: truncate toward zero, saturating at the type's
bounds. -/
def f32_to_u32 (q : ℚ) : Nat :=
  if q ≤ 0 then 0 else min (Int.toNat ⌊q⌋) (2 ^ 32 - 1)

/-- Recursion of `parse_yolo_output` over `output.chunks(6)` with the running
`id` counter.  A `none` result models the Rust panic on a trailing partial
chunk (indexing `chunk[4]` or `chunk[5]` out of bounds). -/
def parse_yolo_aux (orig_w orig_h conf_thresh : ℚ) : List ℚ → Nat → Option (List BBox)
  | [], _ => some []
  | c0 :: c1 :: c2 :: c3 :: c4 :: c5 :: rest, id =>
    if c4 < conf_thresh then parse_yolo_aux orig_w orig_h conf_thresh rest id
    else
      let xmin := max ((c0 - c2 / 2) * orig_w) 0
      let ymin := max ((c1 - c3 / 2) * orig_h) 0
      let xmax := min ((c0 + c2 / 2) * orig_w) orig_w
      let ymax := min ((c1 + c3 / 2) * orig_h) orig_h
      match parse_yolo_aux orig_w orig_h conf_thresh rest (id + 1) with
      | none => none
      | some bs => some (⟨id, xmin, ymin, xmax, ymax, c4, f32_to_u32 c5⟩ :: bs)
  | [_, _, _, _, c4], _ => if c4 < conf_thresh then some [] else none
  | _, _ => none

/-- `parse_yolo_output` from src/vision/postprocess.rs: filter rows of the
raw model output by confidence and clip the scaled boxes to the image. -/
def parse_yolo_output (output : List ℚ) (orig_w orig_h conf_thresh : ℚ) :
    Option (List BBox) :=
  parse_yolo_aux orig_w orig_h conf_thresh output 0

/-- A raw YOLO row describes a box of positive size whose unclipped extent
meets the interior of the normalized image square. -/
def rawBoxOk (c0 c1 c2 c3 : ℚ) : Prop :=
  0 < c2 ∧ 0 < c3 ∧ c0 - c2 / 2 < 1 ∧ 0 < c0 + c2 / 2 ∧ c1 - c3 / 2 < 1 ∧ 0 < c1 + c3 / 2

/-- Every full 6-element chunk of the raw output satisfies `rawBoxOk`. -/
def chunksOk : List ℚ → Prop
  | c0 :: c1 :: c2 :: c3 :: _ :: _ :: rest => rawBoxOk c0 c1 c2 c3 ∧ chunksOk rest
  | _ => True

/-- `AgentAction` — the tagged action variant (spec section 3; concrete
tool catalog from prompts/tools/builtin.json). -/
inductive AgentAction
  | mouse_click (element_id : String)
  | mouse_double_click (element_id : String)
  | mouse_right_click (element_id : String)
  | scroll (direction distance : String) (element_id : Option String)
  | type_text (text : String) (clear_first : Bool)
  | hotkey (keys : String)
  | key_press (key : String)
  | get_viewport (annotate : Bool)
  | execute_terminal (command reason : String)
  | mcp_call (server_name tool_name arguments : String)
  | invoke_skill (skill_name inputs : String)
  | wait (milliseconds : Nat)
  | finish_task (summary : String)
  | report_failure (reason : String)
deriving DecidableEq

/-- `ActionResult` (spec section 3; mirrored by src-ui/src/types/agent.ts). -/
structure ActionResult where
  action : AgentAction
  success : Bool
  error : Option String
  timestamp : Nat
deriving DecidableEq

/-- `UIElement` from src/perception/types.rs.  The `ElementType` enum's
variants are not given in the sources, so the kind is kept as its name. -/
structure UIElement where
  id : String
  node_type : String
  bbox : NormBBox
  content : Option String
  confidence : ℚ

/-- `PerceptionContext` from src/perception/types.rs. -/
structure PerceptionContext where
  image_base64 : Option String
  elements : List UIElement
  resolution : Nat × Nat
  meta : ScreenshotMeta

/-- The `enigo` input device of `Executor`, modelled as oracles for the
operations the executor invokes; each may fail with an error message (the
Rust calls return `Result`).  `perform` stands for the dispatch of the
non-click actions, whose implementations are not in the sources. -/
structure Device where
  move_mouse : Int → Int → Except String Unit
  button_click : Except String Unit
  perform : AgentAction → Except String Unit

/-- `Executor::execute_click` from src/executor/mod.rs: look up the element
by id, map its bbox center to a physical point, move the mouse, then click.
Each failure is returned as `Except.error`, mirroring the Rust `Result`;
the human-like delay between the two device calls has no observable
effect here. -/
def execute_click (dev : Device) (element_id : String) (ctx : PerceptionContext) :
    Except String Unit :=
  match ctx.elements.find? (fun el => el.id == element_id) with
  | none => .error ("element id " ++ element_id ++ " not found")
  | some element =>
    let point := bbox_to_physical element.bbox ctx.meta
    match dev.move_mouse point.x point.y with
    | .error e => .error e
    | .ok _ =>
      match dev.button_click with
      | .error e => .error e
      | .ok _ => .ok ()

/-- Dispatch of one action to its underlying operation: clicks go through
`execute_click` (present in the sources); the other operations are the
device oracle `perform`. -/
def dispatchAction (dev : Device) (a : AgentAction) (ctx : PerceptionContext) :
    Except String Unit :=
  match a with
  | .mouse_click eid => execute_click dev eid ctx
  | other => dev.perform other

/-- Modelled from the spec: the Executor contract `execute(action,
snapshot) -> ActionResult` (spec section 4.5) — the wrapper that captures
any underlying failure into `ActionResult { success: false, error }`
instead of raising.  The repository sources contain only the underlying
`execute_click`, which returns a Rust `Result`; the wrapper itself is
modelled from the specification text. -/
def executeAction (dev : Device) (a : AgentAction) (ctx : PerceptionContext) (now : Nat) :
    ActionResult :=
  match dispatchAction dev a ctx with
  | .ok _ => ⟨a, true, none, now⟩
  | .error e => ⟨a, false, some e, now⟩

/-! ### SSE stream parsing (src/llm/types.rs, src/llm/sse_parser.rs) -/

/-- `FunctionChunk` from src/llm/types.rs. -/
structure FunctionChunk where
  name : Option String
  arguments : Option String
deriving DecidableEq

/-- `ToolCallChunk` from src/llm/types.rs. -/
structure ToolCallChunk where
  index : Nat
  id : Option String
  function : FunctionChunk
deriving DecidableEq

/-- `SseDelta` from src/llm/types.rs. -/
structure SseDelta where
  role : Option String
  content : Option String
  reasoning_content : Option String
  tool_calls : Option (List ToolCallChunk)
deriving DecidableEq

/-- `LlmStreamChunk` from src/llm/types.rs. -/
structure LlmStreamChunk where
  reasoning : Option String
  content : Option String
  tool_call_index : Option Nat
  tool_call_name : Option String
  tool_call_args_delta : Option String
  done : Bool
deriving DecidableEq

/-- `parse_sse_line` from src/llm/sse_parser.rs, taken from the decoded
delta on: the `serde_json` decoding of the raw line into `SseDelta` is
external library code.  Only `calls.first()` is consulted. -/
def parse_sse_line (delta : SseDelta) : LlmStreamChunk :=
  let t :=
    match delta.tool_calls with
    | some calls =>
      match calls.head? with
      | some call => (some call.index, call.function.name, call.function.arguments)
      | none => (none, none, none)
    | none => (none, none, none)
  ⟨delta.reasoning_content, delta.content, t.1, t.2.1, t.2.2, false⟩

/-! ### UI agent store (src-ui/src/store/AgentStore.ts, src-ui/src/types/agent.ts) -/

/-- The TypeScript `AgentAction` (`{ type: string; … }`): only the `type`
tag is structured; the open-ended index-signature payload carries no data
the store inspects. -/
structure AgentActionTS where
  type : String
deriving DecidableEq

/-- `ActionResult` from src-ui/src/types/agent.ts. -/
structure ActionResultTS where
  action : AgentActionTS
  success : Bool
  error : Option String
  timestamp : String
deriving DecidableEq

/-- `ActionCard` from src-ui/src/types/agent.ts. -/
structure ActionCardTS where
  id : String
  action : AgentActionTS
  result : Option ActionResultTS
  timestamp : String
  isExpanded : Bool
deriving DecidableEq

/-- `StreamChunk` from src-ui/src/types/agent.ts. -/
structure StreamChunk where
  kind : String
  content : String
deriving DecidableEq

/-- `Message` from src-ui/src/types/agent.ts. -/
structure Message where
  id : String
  role : String
  content : String
  reasoningContent : Option String
  actionCards : Option (List ActionCardTS)
  timestamp : String
  isStreaming : Bool
  durationMs : Option Nat
  screenshotBase64 : Option String
  gridN : Option Nat
deriving DecidableEq

/-- `LoopConfig` from src-ui/src/types/agent.ts. -/
structure LoopConfigTS where
  mode : String
  maxDurationMinutes : Option Nat
  maxFailures : Option Nat
deriving DecidableEq

/-- `ApprovalRequest` from src-ui/src/types/agent.ts. -/
structure ApprovalRequestTS where
  id : String
  action : AgentActionTS
  reason : String
  timestamp : String
deriving DecidableEq

/-- The observable fields of the `AgentStore` MobX class. -/
structure AgentStoreState where
  state : String
  messages : List Message
  failureCount : Nat
  loopCount : Nat
  elapsedMs : Nat
  loopConfig : LoopConfigTS
  pendingApproval : Option ApprovalRequestTS
  currentStreamingId : Option String
deriving DecidableEq

/-- JavaScript truthiness of a `string | null` value: `null` and the empty
string are falsy (`if (!this.currentStreamingId) return`). -/
def jsFalsy (s : Option String) : Bool :=
  match s with
  | none => true
  | some str => str == ""

/-- Mutating the object returned by `Array.prototype.find` updates the
first matching element of the array in place. -/
def updateFirst (p : Message → Bool) (f : Message → Message) : List Message → List Message
  | [] => []
  | m :: ms => if p m then f m :: ms else m :: updateFirst p f ms

/-- `AgentStore.handleStreamChunk` from src-ui/src/store/AgentStore.ts. -/
def handleStreamChunk (s : AgentStoreState) (chunk : StreamChunk) : AgentStoreState :=
  if jsFalsy s.currentStreamingId then s
  else
    match s.currentStreamingId with
    | none => s
    | some cid =>
      if (s.messages.find? (fun m => m.id == cid)).isNone then s
      else if chunk.kind == "reasoning" then
        let msgs := updateFirst (fun m => m.id == cid)
          (fun m => { m with reasoningContent := some (m.reasoningContent.getD "" ++ chunk.content) })
          s.messages
        { s with messages := msgs }
      else if chunk.kind == "content" then
        let msgs := updateFirst (fun m => m.id == cid)
          (fun m => { m with content := m.content ++ chunk.content })
          s.messages
        { s with messages := msgs }
      else if chunk.kind == "done" || chunk.kind == "error" then
        let msgs := updateFirst (fun m => m.id == cid)
          (fun m => { m with isStreaming := false })
          s.messages
        { s with messages := msgs, currentStreamingId := none }
      else s

/-! ### SSE stream forwarding (src/llm/providers/openai_compat.rs `stream_chat`) -/

/-- The terminator line `"data: [DONE]"`. -/
def doneLine : List Char := ['d', 'a', 't', 'a', ':', ' ', '[', 'D', 'O', 'N', 'E', ']']

/-- The chunk emitted on `"data: [DONE]"`. -/
def doneChunk : LlmStreamChunk := ⟨none, none, none, none, none, true⟩

/-- `line.strip_prefix("data: ")`. -/
def dropDataTag (l : List Char) : Option (List Char) :=
  match l with
  | 'd' :: 'a' :: 't' :: 'a' :: ':' :: ' ' :: rest => some rest
  | _ => none

/-- Handling of one complete SSE line inside `stream_chat`'s loop: the
chunks emitted for that line (immediately, via `app.emit`) and whether the
stream returns (`[DONE]`).  A line that is no `data:` payload, or whose
JSON fails to decode (`if let Ok(parsed)`), emits nothing.  `decode`
stands for the external `serde_json` decoding into `SseDelta`. -/
def handle_sse_line (decode : List Char → Option SseDelta) (raw : List Char) :
    List LlmStreamChunk × Bool :=
  let line := rustTrim raw
  if line = doneLine then ([doneChunk], true)
  else
    match dropDataTag line with
    | some json =>
      match decode json with
      | some delta => ([parse_sse_line delta], false)
      | none => ([], false)
    | none => ([], false)

/-- The sequence of chunks `stream_chat` emits for a sequence of complete
SSE lines, in emission order; processing stops after `[DONE]`. -/
def stream_chat_emits (decode : List Char → Option SseDelta) : List (List Char) → List LlmStreamChunk
  | [] => []
  | raw :: rest =>
    let r := handle_sse_line decode raw
    if r.2 then r.1
    else r.1 ++ stream_chat_emits decode rest

/-! ### Engine run loop, modelled from the spec

The Rust `agent_engine` run loop is not present in the repository sources
(only design documents and a skill sketch of its states exist), so the
state machine below is modelled from the specification text (spec
sections 3, 4.1 and 5). -/

/-- Modelled from the spec: the engine's state set (spec section 3). -/
inductive EngineState
  | Idle
  | Planning (goal : String)
  | Executing (action : AgentAction)
  | AwaitingStability (action : AgentAction)
  | AwaitingApproval (action : AgentAction)
  | Error (message : String)
  | Done (summary : String)
deriving DecidableEq

/-- Is the state the `Error` variant? -/
def EngineState.isError : EngineState → Bool
  | .Error _ => true
  | _ => false

/-- Is the state the `Executing` variant? -/
def EngineState.isExecuting : EngineState → Bool
  | .Executing _ => true
  | _ => false

/-- Modelled from the spec: the planner's verdict for one turn — a single
next action, a finish signal, or a report-failure signal (spec
section 4.1). -/
inductive PlanOutcome
  | action (a : AgentAction)
  | finish (summary : String)
  | failure (reason : String)
deriving DecidableEq

/-- Modelled from the spec: the completion events the engine observes at
its state-transition boundaries. -/
inductive EngineEvent
  | planned (outcome : PlanOutcome)
  | approval (approved : Bool)
  | stability (settled : Bool)
  | actionDone (r : ActionResult)

/-- Modelled from the spec: the engine's run state — current state,
consecutive-failure counter, configuration and the cooperative stop flag
(spec sections 4.1 and 5). -/
structure Engine where
  state : EngineState
  goal : String
  failures : Nat
  maxFailures : Nat
  requireApproval : AgentAction → Bool
  stopRequested : Bool

/-- Modelled from the spec: whether an action is of a kind that changes
on-screen state, gating the `AwaitingStability` transition (spec
section 4.1). -/
def changesScreen : AgentAction → Bool
  | .get_viewport _ => false
  | .wait _ => false
  | .finish_task _ => false
  | .report_failure _ => false
  | _ => true

/-- Modelled from the spec: recording an `ActionResult` (spec section 4.1):
reset the consecutive-failure counter on success, increment it by one on
failure, then apply the loop-termination check — counter at or above
`max_consecutive_failures` stops the run with `Error`; otherwise the run
proceeds to `AwaitingStability` (screen-changing action) or straight back
to `Planning`. -/
def recordResult (e : Engine) (r : ActionResult) : Engine :=
  let failures := if r.success then 0 else e.failures + 1
  if e.maxFailures ≤ failures then
    { e with failures := failures, state := .Error "max consecutive failures reached" }
  else
    { e with failures := failures,
             state := if changesScreen r.action then .AwaitingStability r.action
                      else .Planning e.goal }

/-- Modelled from the spec: the state the run settles in when the stop flag
is observed at a transition boundary — a finished run keeps its terminal
state, anything else is cancelled to `Idle` (spec section 5). -/
def stopResolve : EngineState → EngineState
  | .Idle => .Idle
  | .Error m => .Error m
  | .Done s => .Done s
  | _ => .Idle

/-- Modelled from the spec: one engine transition at a state-transition
boundary (spec sections 4.1 and 5).  Control messages are checked between
transitions: a pending stop resolves the run before any other event is
honored, so an approval arriving after `stop()` can no longer start an
execution; otherwise the event drives the ordinary transitions. -/
def engineStepGo (e : Engine) (ev : EngineEvent) : Engine :=
  match e.state, ev with
  | .Planning _, .planned (.action a) =>
      { e with state := if e.requireApproval a then .AwaitingApproval a else .Executing a }
  | .Planning _, .planned (.finish s) => { e with state := .Done s }
  | .Planning _, .planned (.failure r) => { e with state := .Error r }
  | .AwaitingApproval a, .approval true => { e with state := .Executing a }
  | .AwaitingApproval _, .approval false => { e with state := .Idle }
  | .AwaitingStability _, .stability _ => { e with state := .Planning e.goal }
  | .Executing _, .actionDone r => recordResult e r
  | _, _ => e

def engineStep (e : Engine) (ev : EngineEvent) : Engine :=
  if e.stopRequested then
    { e with state := stopResolve e.state }
  else
    engineStepGo e ev

/-- Folding a sequence of boundary events through the engine. -/
def engineRun (e : Engine) : List EngineEvent → Engine
  | [] => e
  | ev :: evs => engineRun (engineStep e ev) evs

/-! ## Theorems and supporting lemmas -/

lemma digitChar_facts (m : Nat) (h : m < 10) :
    (Char.ofNat (48 + m)).isDigit = true ∧ (Char.ofNat (48 + m)).isAlpha = false ∧
    (Char.ofNat (48 + m)).isWhitespace = false ∧
    (Char.ofNat (48 + m)).toUpper = Char.ofNat (48 + m) ∧
    (Char.ofNat (48 + m)).toNat = 48 + m := by
  interval_cases m <;> exact ⟨by decide, by decide, by decide, by decide, by decide⟩

lemma natDigits_mem (n : Nat) : ∀ c ∈ natDigits n, ∃ m, m < 10 ∧ c = Char.ofNat (48 + m) := by
  induction n using natDigits.induct with
  | case1 n h =>
    intro c hc
    rw [natDigits, if_pos h] at hc
    simp only [List.mem_singleton] at hc
    exact ⟨n, h, hc⟩
  | case2 n h ih =>
    intro c hc
    rw [natDigits, if_neg h] at hc
    rcases List.mem_append.1 hc with h1 | h1
    · exact ih c h1
    · simp only [List.mem_singleton] at h1
      exact ⟨n % 10, Nat.mod_lt _ (by omega), h1⟩

lemma natDigits_ne_nil (n : Nat) : natDigits n ≠ [] := by
  induction n using natDigits.induct with
  | case1 n h => rw [natDigits, if_pos h]; simp
  | case2 n h ih => rw [natDigits, if_neg h]; simp

lemma natDigits_foldl (n acc : Nat) :
    (natDigits n).foldl (fun a c => a * 10 + (c.toNat - 48)) acc
      = acc * 10 ^ (natDigits n).length + n := by
  induction n using natDigits.induct generalizing acc with
  | case1 n h =>
    rw [natDigits, if_pos h]
    simp [(digitChar_facts n h).2.2.2.2]
  | case2 n h ih =>
    rw [natDigits, if_neg h]
    rw [List.foldl_append, ih]
    simp only [List.foldl_cons, List.foldl_nil, List.length_append, List.length_cons,
      List.length_nil]
    rw [(digitChar_facts (n % 10) (Nat.mod_lt _ (by omega))).2.2.2.2]
    have he : 48 + n % 10 - 48 = n % 10 := by omega
    rw [he]
    have hp : 10 ^ ((natDigits (n / 10)).length + (0 + 1))
        = 10 ^ (natDigits (n / 10)).length * 10 := by
      rw [Nat.zero_add, Nat.pow_succ]
    rw [hp, Nat.add_mul, Nat.add_assoc, Nat.mul_assoc]
    congr 1
    omega

lemma parseU32_natDigits (n : Nat) (h : n < 2 ^ 32) : parseU32 (natDigits n) = some n := by
  rcases hE : natDigits n with _ | ⟨c, cs⟩
  · exact absurd hE (natDigits_ne_nil n)
  · have hmem := natDigits_mem n
    rw [hE] at hmem
    obtain ⟨m, hm, hcm⟩ := hmem c (by simp)
    have hcne : c ≠ '+' := by
      subst hcm
      intro hEq
      have h43 : 48 + m = ('+').toNat := by
        rw [← (digitChar_facts m hm).2.2.2.2, hEq]
      have h43' : ('+').toNat = 43 := by decide
      omega
    have hall : (c :: cs).all Char.isDigit = true := by
      rw [List.all_eq_true]
      intro x hx
      obtain ⟨mx, hmx, hcx⟩ := hmem x hx
      rw [hcx]
      exact (digitChar_facts mx hmx).1
    have hfold := natDigits_foldl n 0
    rw [hE] at hfold
    simp only [Nat.zero_mul, Nat.zero_add] at hfold
    simp only [parseU32, List.head?_cons, List.tail_cons, Option.some.injEq]
    rw [if_neg hcne]
    simp [hall, hfold]
    omega

lemma upperChar_facts (m : Nat) (h : m < 26) :
    (Char.ofNat (65 + m)).isAlpha = true ∧ (Char.ofNat (65 + m)).isWhitespace = false ∧
    (Char.ofNat (65 + m)).toUpper = Char.ofNat (65 + m) ∧
    (Char.ofNat (65 + m)).toNat = 65 + m := by
  interval_cases m <;> exact ⟨by decide, by decide, by decide, by decide⟩

lemma dropWhile_append_all {p : Char → Bool} (l₁ l₂ : List Char) (h : ∀ c ∈ l₁, p c = true) :
    (l₁ ++ l₂).dropWhile p = l₂.dropWhile p := by
  induction l₁ with
  | nil => rfl
  | cons a l ih => simp_all [List.dropWhile_cons]

lemma takeWhile_append_nil {p : Char → Bool} (l₁ l₂ : List Char) (h₁ : ∀ c ∈ l₁, p c = true)
    (h₂ : l₂.takeWhile p = []) : (l₁ ++ l₂).takeWhile p = l₁ := by
  induction l₁ with
  | nil => rw [List.nil_append]; exact h₂
  | cons a l ih => simp_all [List.takeWhile_cons]

lemma dropWhile_eq_self_of {p : Char → Bool} (l : List Char)
    (h : ∀ c ∈ l, p c = false) : l.dropWhile p = l := by
  cases l with
  | nil => rfl
  | cons a l => simp [List.dropWhile_cons, h a (by simp)]

lemma rustTrim_eq_self (l : List Char) (h : ∀ c ∈ l, c.isWhitespace = false) :
    rustTrim l = l := by
  rw [rustTrim, dropWhile_eq_self_of l h, dropWhile_eq_self_of _ (by simpa using h),
    List.reverse_reverse]

lemma map_toUpper_eq_self (l : List Char) (h : ∀ c ∈ l, c.toUpper = c) :
    l.map Char.toUpper = l := by
  induction l with
  | nil => rfl
  | cons a l ih => simp_all

theorem parse_format_roundtrip (col row : Nat) (hc : col < 52) (hr : row + 1 < 2 ^ 32) :
    parse_grid_label (gridLabel col row) = some ⟨col, row⟩ := by
  have hrow := parseU32_natDigits (row + 1) hr
  have hDmem := natDigits_mem (row + 1)
  have hDfacts : ∀ c ∈ natDigits (row + 1),
      c.isAlpha = false ∧ c.isWhitespace = false ∧ c.toUpper = c := by
    intro c hcmem
    obtain ⟨m, hm, hcm⟩ := hDmem c hcmem
    rw [hcm]
    exact ⟨(digitChar_facts m hm).2.1, (digitChar_facts m hm).2.2.1,
      (digitChar_facts m hm).2.2.2.1⟩
  have hDtake : (natDigits (row + 1)).takeWhile Char.isAlpha = [] := by
    rcases hE : natDigits (row + 1) with _ | ⟨c, cs⟩
    · rfl
    · have := hDfacts c (by rw [hE]; simp)
      simp [List.takeWhile_cons, this.1]
  have hDdrop : (natDigits (row + 1)).dropWhile Char.isAlpha = natDigits (row + 1) :=
    dropWhile_eq_self_of _ (fun c hcmem => (hDfacts c hcmem).1)
  rcases Nat.lt_or_ge col 26 with h26 | h26
  · -- single-letter column
    have hCP : col_label col = [Char.ofNat (65 + col)] := by
      rw [col_label, if_pos h26, Nat.mod_eq_of_lt (show col < 256 by omega),
        Nat.mod_eq_of_lt (show 65 + col < 256 by omega)]
    have hu := upperChar_facts col h26
    have hColAlpha : ∀ c ∈ [Char.ofNat (65 + col)], Char.isAlpha c = true := by
      intro c hcc
      simp only [List.mem_singleton] at hcc
      rw [hcc]; exact hu.1
    have hfull : ∀ c ∈ gridLabel col row, c.isWhitespace = false ∧ c.toUpper = c := by
      intro c hcmem
      rw [gridLabel, hCP] at hcmem
      rcases List.mem_append.1 hcmem with h1 | h1
      · simp only [List.mem_singleton] at h1
        rw [h1]; exact ⟨hu.2.1, hu.2.2.1⟩
      · exact ⟨(hDfacts c h1).2.1, (hDfacts c h1).2.2⟩
    rw [parse_grid_label]
    rw [rustTrim_eq_self _ (fun c hcc => (hfull c hcc).1),
      map_toUpper_eq_self _ (fun c hcc => (hfull c hcc).2)]
    rw [gridLabel, hCP]
    rw [takeWhile_append_nil _ _ hColAlpha hDtake,
      dropWhile_append_all _ _ hColAlpha, hDdrop]
    have hne : ¬(65 + col < 65) := by omega
    have hne2 : ¬(row + 1 < 1) := by omega
    have e1 : 65 + col - 65 = col := by omega
    have e2 : row + 1 - 1 = row := by omega
    simp [checkedSub, hu.2.2.2, hrow, hne, hne2, e1, e2]
  · -- double-letter column
    have h26' : col - 26 < 26 := by omega
    have hCP : col_label col = ['A', Char.ofNat (65 + (col - 26))] := by
      rw [col_label, if_neg (by omega), Nat.mod_eq_of_lt (show col - 26 < 256 by omega),
        Nat.mod_eq_of_lt (show 65 + (col - 26) < 256 by omega)]
    have hu := upperChar_facts (col - 26) h26'
    have hColAlpha : ∀ c ∈ ['A', Char.ofNat (65 + (col - 26))], Char.isAlpha c = true := by
      intro c hcc
      simp only [List.mem_cons, List.mem_singleton, List.not_mem_nil, or_false] at hcc
      rcases hcc with h1 | h1
      · rw [show c = 'A' from h1]; decide
      · rw [h1]; exact hu.1
    have hfull : ∀ c ∈ gridLabel col row, c.isWhitespace = false ∧ c.toUpper = c := by
      intro c hcmem
      rw [gridLabel, hCP] at hcmem
      rcases List.mem_append.1 hcmem with h1 | h1
      · simp only [List.mem_cons, List.mem_singleton, List.not_mem_nil, or_false] at h1
        rcases h1 with h1 | h1
        · rw [show c = 'A' from h1]; exact ⟨by decide, by decide⟩
        · rw [h1]; exact ⟨hu.2.1, hu.2.2.1⟩
      · exact ⟨(hDfacts c h1).2.1, (hDfacts c h1).2.2⟩
    rw [parse_grid_label]
    rw [rustTrim_eq_self _ (fun c hcc => (hfull c hcc).1),
      map_toUpper_eq_self _ (fun c hcc => (hfull c hcc).2)]
    rw [gridLabel, hCP]
    rw [takeWhile_append_nil _ _ hColAlpha hDtake,
      dropWhile_append_all _ _ hColAlpha, hDdrop]
    have hne2 : ¬(row + 1 < 1) := by omega
    have e2 : row + 1 - 1 = row := by omega
    have e3 : 26 + (65 + (col - 26) - 65) = col := by omega
    simp [checkedSub, hu.2.2.2, hrow, hne2, e2, e3]
    omega

lemma rustRound_intCast (k : ℤ) : rustRound (k : ℚ) = k := by
  rw [rustRound]
  rcases le_or_lt 0 (k : ℚ) with h | h
  · rw [if_pos h, add_comm, Int.floor_add_int]
    norm_num
  · rw [if_neg (not_le.2 h), sub_eq_add_neg, add_comm, Int.ceil_add_int]
    norm_num

/-- Claim C3: for every capture metadata with scale factor `s`, resolving a
locator whose normalized bbox center is `(0,0)` yields the physical point
`(monitor_origin_x, monitor_origin_y)`, and one whose center is `(1,1)`
yields `(monitor_origin_x + logical_width*s, monitor_origin_y +
logical_height*s)` (stated with the scaled extents being whole numbers of
physical pixels, since the resulting point is integral). -/
theorem C3_bbox_to_physical_corners (b0 b1 : NormBBox) (meta : ScreenshotMeta)
    (h00x : b0.xmin + b0.xmax = 0) (h00y : b0.ymin + b0.ymax = 0)
    (h11x : b1.xmin + b1.xmax = 2) (h11y : b1.ymin + b1.ymax = 2)
    (kx ky : ℤ)
    (hkx : (meta.logical_width : ℚ) * meta.scale_factor = (kx : ℚ))
    (hky : (meta.logical_height : ℚ) * meta.scale_factor = (ky : ℚ)) :
    bbox_to_physical b0 meta = ⟨meta.monitor_x, meta.monitor_y⟩ ∧
    bbox_to_physical b1 meta = ⟨meta.monitor_x + kx, meta.monitor_y + ky⟩ := by
  constructor
  · rw [bbox_to_physical]
    have hx : (b0.xmin + b0.xmax) / 2 * (meta.logical_width : ℚ) * meta.scale_factor = ((0 : ℤ) : ℚ) := by
      rw [h00x]; norm_num
    have hy : (b0.ymin + b0.ymax) / 2 * (meta.logical_height : ℚ) * meta.scale_factor = ((0 : ℤ) : ℚ) := by
      rw [h00y]; norm_num
    rw [hx, hy, rustRound_intCast]
    simp
  · rw [bbox_to_physical]
    have hx : (b1.xmin + b1.xmax) / 2 * (meta.logical_width : ℚ) * meta.scale_factor = (kx : ℚ) := by
      rw [h11x, ← hkx]; ring
    have hy : (b1.ymin + b1.ymax) / 2 * (meta.logical_height : ℚ) * meta.scale_factor = (ky : ℚ) := by
      rw [h11y, ← hky]; ring
    rw [hx, hy, rustRound_intCast, rustRound_intCast]

theorem C3_witness :
    bbox_to_physical ⟨0, 0, 0, 0⟩ ⟨1920, 1080, 3 / 2, 100, 200⟩ = ⟨100, 200⟩ ∧
    bbox_to_physical ⟨1, 1, 1, 1⟩ ⟨1920, 1080, 3 / 2, 100, 200⟩ = ⟨100 + 2880, 200 + 1620⟩ :=
  C3_bbox_to_physical_corners ⟨0, 0, 0, 0⟩ ⟨1, 1, 1, 1⟩ ⟨1920, 1080, 3 / 2, 100, 200⟩
    (by norm_num) (by norm_num) (by norm_num) (by norm_num) 2880 1620
    (by norm_num) (by norm_num)

/-- Claim C4: for every label that parses to zero-indexed `(col,row)`,
every grid size `N ≠ 0` and every capture metadata, resolving the label
through the grid path (`grid_cell_to_physical`, via `grid_to_pixel`)
yields the same physical point as resolving a synthetic element whose
normalized bbox is the cell rectangle `[col/N, row/N, (col+1)/N,
(row+1)/N]` through the element path (`bbox_to_physical`). -/
theorem C4_grid_path_refines_element_path (label : List Char) (col row : Nat)
    (meta : ScreenshotMeta) (N : Nat)
    (hparse : parse_grid_label label = some ⟨col, row⟩) (hN : N ≠ 0) :
    grid_cell_to_physical label meta N =
      some (bbox_to_physical
        ⟨(col : ℚ) / (N : ℚ), (row : ℚ) / (N : ℚ),
         ((col : ℚ) + 1) / (N : ℚ), ((row : ℚ) + 1) / (N : ℚ)⟩ meta) := by
  have hNQ : (N : ℚ) ≠ 0 := Nat.cast_ne_zero.2 hN
  simp only [grid_cell_to_physical, hparse, grid_to_pixel, bbox_to_physical,
    Option.some.injEq, PhysicalPoint.mk.injEq]
  constructor
  · congr 1
    congr 1
    field_simp
    ring
  · congr 1
    congr 1
    field_simp
    ring

theorem C4_witness :
    grid_cell_to_physical ['C', '4'] ⟨1920, 1080, 3 / 2, 100, 200⟩ 8 =
      some (bbox_to_physical
        ⟨((2 : Nat) : ℚ) / ((8 : Nat) : ℚ), ((3 : Nat) : ℚ) / ((8 : Nat) : ℚ),
         (((2 : Nat) : ℚ) + 1) / ((8 : Nat) : ℚ), (((3 : Nat) : ℚ) + 1) / ((8 : Nat) : ℚ)⟩
        ⟨1920, 1080, 3 / 2, 100, 200⟩) :=
  C4_grid_path_refines_element_path ['C', '4'] 2 3 ⟨1920, 1080, 3 / 2, 100, 200⟩ 8
    (by decide) (by norm_num)

/-- Claim C2 (amended): for every grid size `N` with `1 ≤ N ≤ 52` and every
cell `0 ≤ col < N`, `0 ≤ row < N`, parsing the label written by the grid
drawer for `(col,row)` round-trips: `parse_grid_label (gridLabel col row)`
returns exactly `(col, row)`.  (The bound `N ≤ 52` is forced: `col_label`
only produces letter pairs for columns `26…51`, so the round trip fails
from column 52 on.) -/
theorem C2_grid_label_roundtrip (N col row : Nat) (hN : 1 ≤ N) (hN52 : N ≤ 52)
    (hcol : col < N) (hrow : row < N) :
    parse_grid_label (gridLabel col row) = some ⟨col, row⟩ :=
  parse_format_roundtrip col row (by omega) (by omega)

theorem C2_witness : parse_grid_label (gridLabel 2 3) = some ⟨2, 3⟩ :=
  C2_grid_label_roundtrip 8 2 3 (by norm_num) (by norm_num) (by norm_num) (by norm_num)

/-- Claim C2 counterexample: at grid size `N = 53` the claim as stated
fails on cell `(52, 0)`: `col_label 52` produces the non-letter string
`"A["`, whose row part `"[1"` fails to parse, so the round trip does not
return `(52, 0)`. -/
theorem C2_counterexample : parse_grid_label (gridLabel 52 0) ≠ some ⟨52, 0⟩ := by
  have h : gridLabel 52 0 = ['A', '[', '1'] := by
    simp [gridLabel, col_label, natDigits]
  rw [h]
  decide

lemma parse_yolo_aux_invariant (orig_w orig_h conf_thresh : ℚ)
    (hw : 0 < orig_w) (hh : 0 < orig_h) :
    ∀ (l : List ℚ) (idc : Nat), chunksOk l →
      ∀ bs, parse_yolo_aux orig_w orig_h conf_thresh l idc = some bs →
        ∀ b ∈ bs, b.xmin < b.xmax ∧ b.ymin < b.ymax := by
  intro l idc
  induction l, idc using parse_yolo_aux.induct orig_w orig_h conf_thresh with
  | case1 id =>
    intro _ bs hbs b hb
    rw [parse_yolo_aux] at hbs
    cases hbs
    simp at hb
  | case2 c0 c1 c2 c3 c4 c5 rest id hlt ih =>
    intro hok bs hbs b hb
    rw [parse_yolo_aux, if_pos hlt] at hbs
    exact ih hok.2 bs hbs b hb
  | case3 c0 c1 c2 c3 c4 c5 rest id hge hnone ih =>
    intro hok bs hbs b hb
    rw [parse_yolo_aux, if_neg hge] at hbs
    simp only [hnone] at hbs
    exact Option.noConfusion hbs
  | case4 c0 c1 c2 c3 c4 c5 rest id hge bs0 hsome ih =>
    intro hok bs hbs b hb
    rw [parse_yolo_aux, if_neg hge] at hbs
    simp only [hsome, Option.some.injEq] at hbs
    subst hbs
    obtain ⟨hc2, hc3, hx1, hx2, hy1, hy2⟩ := hok.1
    rcases List.mem_cons.1 hb with hbeq | hbmem
    · subst hbeq
      constructor
      · rw [max_lt_iff, lt_min_iff, lt_min_iff]
        refine ⟨⟨?_, ?_⟩, ?_, ?_⟩ <;> nlinarith
      · rw [max_lt_iff, lt_min_iff, lt_min_iff]
        refine ⟨⟨?_, ?_⟩, ?_, ?_⟩ <;> nlinarith
    · exact ih hok.2 bs0 hsome b hbmem
  | case5 a0 a1 a2 a3 c4 id hlt =>
    intro _ bs hbs b hb
    rw [parse_yolo_aux, if_pos hlt] at hbs
    cases hbs
    simp at hb
  | case6 a0 a1 a2 a3 c4 id hge =>
    intro _ bs hbs b hb
    rw [parse_yolo_aux, if_neg hge] at hbs
    cases hbs
  | case7 t id hnil h6 h5 =>
    intro _ bs hbs b hb
    exfalso
    cases t with
    | nil => exact hnil rfl
    | cons a0 t0 =>
    cases t0 with
    | nil =>
      rw [show parse_yolo_aux orig_w orig_h conf_thresh [a0] id = none from rfl] at hbs
      exact Option.noConfusion hbs
    | cons a1 t1 =>
    cases t1 with
    | nil =>
      rw [show parse_yolo_aux orig_w orig_h conf_thresh [a0, a1] id = none from rfl] at hbs
      exact Option.noConfusion hbs
    | cons a2 t2 =>
    cases t2 with
    | nil =>
      rw [show parse_yolo_aux orig_w orig_h conf_thresh [a0, a1, a2] id = none from rfl] at hbs
      exact Option.noConfusion hbs
    | cons a3 t3 =>
    cases t3 with
    | nil =>
      rw [show parse_yolo_aux orig_w orig_h conf_thresh [a0, a1, a2, a3] id = none from rfl] at hbs
      exact Option.noConfusion hbs
    | cons a4 t4 =>
    cases t4 with
    | nil => exact h5 a0 a1 a2 a3 a4 rfl
    | cons a5 t5 => exact h6 a0 a1 a2 a3 a4 a5 t5 rfl

/-- Claim C9 (amended): every UIElement bounding box produced by
`parse_yolo_output` satisfies `xmin < xmax` and `ymin < ymax`, for every
original image size with positive extents and every confidence threshold,
provided each raw 6-value row describes a box of positive width and height
whose unclipped extent meets the interior of the image (the counterexample
forces these provisos: a zero-size or fully out-of-frame raw box yields a
degenerate clipped box). -/
theorem C9_bbox_invariant (output : List ℚ) (orig_w orig_h conf_thresh : ℚ)
    (hw : 0 < orig_w) (hh : 0 < orig_h) (hok : chunksOk output)
    (boxes : List BBox)
    (hout : parse_yolo_output output orig_w orig_h conf_thresh = some boxes) :
    ∀ b ∈ boxes, b.xmin < b.xmax ∧ b.ymin < b.ymax :=
  parse_yolo_aux_invariant orig_w orig_h conf_thresh hw hh output 0 hok boxes hout

theorem C9_witness :
    (⟨0, 25, 25, 75, 75, 1, 0⟩ : BBox).xmin < (⟨0, 25, 25, 75, 75, 1, 0⟩ : BBox).xmax ∧
    (⟨0, 25, 25, 75, 75, 1, 0⟩ : BBox).ymin < (⟨0, 25, 25, 75, 75, 1, 0⟩ : BBox).ymax :=
  C9_bbox_invariant [1/2, 1/2, 1/2, 1/2, 1, 0] 100 100 (1/2) (by norm_num) (by norm_num)
    (by constructor
        · refine ⟨by norm_num, by norm_num, by norm_num, by norm_num, by norm_num, by norm_num⟩
        · trivial)
    [⟨0, 25, 25, 75, 75, 1, 0⟩]
    (by rw [parse_yolo_output, parse_yolo_aux, if_neg (by norm_num), parse_yolo_aux]
        norm_num [f32_to_u32])
    ⟨0, 25, 25, 75, 75, 1, 0⟩ (by simp)

/-- Claim C9 counterexample: the invariant fails as stated.  For the raw
model output row `[1/2, 1/2, 0, 0, 1, 0]` (a zero-width, zero-height box
passing the confidence threshold) on a 100x100 image, post-processing
produces a box with `xmin = xmax = 50` and `ymin = ymax = 50`. -/
theorem C9_counterexample :
    parse_yolo_output [1/2, 1/2, 0, 0, 1, 0] 100 100 (1/2) =
      some [⟨0, 50, 50, 50, 50, 1, 0⟩] ∧
    ¬ ((⟨0, 50, 50, 50, 50, 1, 0⟩ : BBox).xmin < (⟨0, 50, 50, 50, 50, 1, 0⟩ : BBox).xmax) := by
  constructor
  · rw [parse_yolo_output, parse_yolo_aux, if_neg (by norm_num), parse_yolo_aux]
    norm_num [f32_to_u32]
  · norm_num

/-- Claim C5: for every action and snapshot, the Executor's execute
operation returns an `ActionResult` (it is a total function into
`ActionResult`, so no error passes its boundary); a failed result carries
an error message and a successful one does not; every underlying failure
is captured as `success = false` with the failure's message; and in
particular a locator element id not present in the snapshot yields
`success = false` with an "element id … not found" message. -/
theorem C5_executor_captures_failures (dev : Device) (a : AgentAction)
    (ctx : PerceptionContext) (now : Nat) :
    ((executeAction dev a ctx now).success = false
      ↔ ((executeAction dev a ctx now).error).isSome = true)
    ∧ (∀ e, dispatchAction dev a ctx = .error e →
        executeAction dev a ctx now = ⟨a, false, some e, now⟩)
    ∧ (∀ eid, a = .mouse_click eid → (∀ el ∈ ctx.elements, ¬ el.id = eid) →
        (executeAction dev a ctx now).success = false
        ∧ (executeAction dev a ctx now).error
            = some ("element id " ++ eid ++ " not found")) := by
  refine ⟨?_, ?_, ?_⟩
  · rw [executeAction]
    cases dispatchAction dev a ctx <;> simp
  · intro e he
    rw [executeAction, he]
  · intro eid haeq hnone
    subst haeq
    have hfind : ctx.elements.find? (fun el => el.id == eid) = none := by
      rw [List.find?_eq_none]
      intro el hel
      simpa using hnone el hel
    have hdisp : dispatchAction dev (.mouse_click eid) ctx
        = .error ("element id " ++ eid ++ " not found") := by
      rw [dispatchAction, execute_click, hfind]
    rw [executeAction, hdisp]
    exact ⟨rfl, rfl⟩

theorem C5_witness :
    (executeAction ⟨fun _ _ => .ok (), .ok (), fun _ => .ok ()⟩ (.mouse_click "b1")
        ⟨none, [], (1920, 1080), ⟨1920, 1080, 1, 0, 0⟩⟩ 0).success = false
    ∧ (executeAction ⟨fun _ _ => .ok (), .ok (), fun _ => .ok ()⟩ (.mouse_click "b1")
        ⟨none, [], (1920, 1080), ⟨1920, 1080, 1, 0, 0⟩⟩ 0).error
      = some ("element id " ++ "b1" ++ " not found") :=
  (C5_executor_captures_failures ⟨fun _ _ => .ok (), .ok (), fun _ => .ok ()⟩
    (.mouse_click "b1") ⟨none, [], (1920, 1080), ⟨1920, 1080, 1, 0, 0⟩⟩ 0).2.2
    "b1" rfl (by intro el hel; simp at hel)

/-- Claim C6: at most one structured action is forwarded per streamed
delta: the produced chunk depends only on the first tool call of the list
(`calls.take 1`), its single tool-call slot is exactly the head's data,
and every tool call after the first is discarded. -/
theorem C6_first_tool_call_only (delta : SseDelta) :
    parse_sse_line delta
      = parse_sse_line { delta with tool_calls := delta.tool_calls.map (fun calls => calls.take 1) }
    ∧ (parse_sse_line delta).tool_call_index
        = (delta.tool_calls.bind List.head?).map ToolCallChunk.index
    ∧ (parse_sse_line delta).tool_call_name
        = (delta.tool_calls.bind List.head?).bind (fun c => c.function.name)
    ∧ (parse_sse_line delta).tool_call_args_delta
        = (delta.tool_calls.bind List.head?).bind (fun c => c.function.arguments) := by
  rcases delta with ⟨role, content, reasoning, calls⟩
  rcases calls with _ | ⟨_ | ⟨c, rest⟩⟩ <;>
    simp [parse_sse_line]

/-- Claim C10: a stream chunk delivered while no assistant message is
streaming (`currentStreamingId` is null) leaves the entire store unchanged:
no message content, reasoning text or any other field is modified. -/
theorem C10_chunk_without_slot_is_noop (s : AgentStoreState) (chunk : StreamChunk)
    (h : s.currentStreamingId = none) : handleStreamChunk s chunk = s := by
  rw [handleStreamChunk, h]
  rfl

theorem C10_witness :
    handleStreamChunk
      ⟨"idle", [], 0, 0, 0, ⟨"until_done", none, none⟩, none, none⟩
      ⟨"content", "hello"⟩
    = ⟨"idle", [], 0, 0, 0, ⟨"until_done", none, none⟩, none, none⟩ :=
  C10_chunk_without_slot_is_noop
    ⟨"idle", [], 0, 0, 0, ⟨"until_done", none, none⟩, none, none⟩
    ⟨"content", "hello"⟩ rfl

lemma handle_sse_line_not_done (decode : List Char → Option SseDelta) (raw : List Char)
    (h : rustTrim raw ≠ doneLine) : (handle_sse_line decode raw).2 = false := by
  rw [handle_sse_line]
  simp only [if_neg h]
  cases hd : dropDataTag (rustTrim raw) with
  | none => rfl
  | some json => cases hdec : decode json <;> simp [hdec]

lemma find?_updateFirst (p : Message → Bool) (f : Message → Message)
    (hp : ∀ m, p (f m) = p m) (l : List Message) :
    (updateFirst p f l).find? p = (l.find? p).map f := by
  induction l with
  | nil => rfl
  | cons m ms ih =>
    by_cases hm : p m
    · rw [updateFirst, if_pos hm, List.find?_cons_of_pos _ ((hp m).trans hm),
        List.find?_cons_of_pos _ hm]
      rfl
    · rw [updateFirst, if_neg hm, List.find?_cons_of_neg _ hm,
        List.find?_cons_of_neg, ih]
      exact hm

/-- Claim C7: streamed deltas are forwarded unbuffered and in arrival
order — the chunks emitted for a sequence of lines are exactly the
per-line chunks concatenated in line order, so each line's chunk is
emitted before any later line is processed and nothing is withheld until
the turn completes; and the UI store appends each delivered chunk at the
end of the current streaming message's text (content for visible text,
reasoningContent for reasoning), in the order delivered. -/
theorem C7_stream_unbuffered_in_order (decode : List Char → Option SseDelta)
    (l₁ l₂ : List (List Char)) (hnd : ∀ raw ∈ l₁, rustTrim raw ≠ doneLine) :
    stream_chat_emits decode (l₁ ++ l₂)
      = stream_chat_emits decode l₁ ++ stream_chat_emits decode l₂
    ∧ (∀ (s : AgentStoreState) (cid : String) (m : Message) (c : StreamChunk),
        s.currentStreamingId = some cid → cid ≠ "" →
        s.messages.find? (fun m' => m'.id == cid) = some m →
        c.kind = "content" →
        ((handleStreamChunk s c).messages.find? (fun m' => m'.id == cid))
          = some { m with content := m.content ++ c.content })
    ∧ (∀ (s : AgentStoreState) (cid : String) (m : Message) (c : StreamChunk),
        s.currentStreamingId = some cid → cid ≠ "" →
        s.messages.find? (fun m' => m'.id == cid) = some m →
        c.kind = "reasoning" →
        ((handleStreamChunk s c).messages.find? (fun m' => m'.id == cid))
          = some { m with reasoningContent := some (m.reasoningContent.getD "" ++ c.content) }) := by
  refine ⟨?_, ?_, ?_⟩
  · induction l₁ with
    | nil => simp [stream_chat_emits]
    | cons raw rest ih =>
      have hr := handle_sse_line_not_done decode raw (hnd raw (by simp))
      rw [List.cons_append, stream_chat_emits, stream_chat_emits]
      simp only [hr, Bool.false_eq_true, if_false]
      rw [ih (fun r hrr => hnd r (by simp [hrr])), List.append_assoc]
  · intro s cid m c hcur hne hfind hkind
    have hfal : jsFalsy (some cid) = false := by simp [jsFalsy, hne]
    have hnn : (s.messages.find? (fun m' => m'.id == cid)).isNone = false := by
      rw [hfind]; rfl
    have hp : ∀ m' : Message, ((fun m'' => m''.id == cid)
        ({ m' with content := m'.content ++ c.content } : Message))
        = ((fun m'' => m''.id == cid) m') := fun m' => rfl
    rw [handleStreamChunk, hcur]
    simp only [hfal, Bool.false_eq_true, if_false, hnn, hkind]
    rw [if_neg (by decide), if_pos (by decide)]
    rw [find?_updateFirst _ _ hp, hfind]
    rfl
  · intro s cid m c hcur hne hfind hkind
    have hfal : jsFalsy (some cid) = false := by simp [jsFalsy, hne]
    have hnn : (s.messages.find? (fun m' => m'.id == cid)).isNone = false := by
      rw [hfind]; rfl
    have hp : ∀ m' : Message, ((fun m'' => m''.id == cid)
        ({ m' with reasoningContent := some (m'.reasoningContent.getD "" ++ c.content) } : Message))
        = ((fun m'' => m''.id == cid) m') := fun m' => rfl
    rw [handleStreamChunk, hcur]
    simp only [hfal, Bool.false_eq_true, if_false, hnn, hkind]
    rw [if_pos (by decide)]
    rw [find?_updateFirst _ _ hp, hfind]
    rfl

theorem C7_witness :
    stream_chat_emits (fun _ => none) ([['d', 'a', 't', 'a', ':', ' ', 'x']] ++ [doneLine])
      = stream_chat_emits (fun _ => none) [['d', 'a', 't', 'a', ':', ' ', 'x']]
        ++ stream_chat_emits (fun _ => none) [doneLine] :=
  (C7_stream_unbuffered_in_order (fun _ => none) [['d', 'a', 't', 'a', ':', ' ', 'x']] [doneLine]
    (by intro raw hr; simp only [List.mem_singleton] at hr; subst hr; decide)).1

/-- Claim C1: recording an `ActionResult` resets the consecutive-failure
counter to 0 on success and increments it by exactly 1 on failure; and —
for a run whose counter has not yet breached a positive limit — the
recording transitions the run to `Error` exactly when the counter reaches
`max_consecutive_failures`: never at a smaller count and never later.
`recordResult` is precisely the engine's transition for a completed
action. -/
theorem C1_failure_counter (e : Engine) (r : ActionResult)
    (hmax : 0 < e.maxFailures) (hbelow : e.failures < e.maxFailures) :
    (r.success = true → (recordResult e r).failures = 0)
    ∧ (r.success = false → (recordResult e r).failures = e.failures + 1)
    ∧ ((recordResult e r).state.isError = true
        ↔ (recordResult e r).failures = e.maxFailures)
    ∧ (∀ a ev, e.state = .Executing a → e.stopRequested = false → ev = EngineEvent.actionDone r →
        engineStep e ev = recordResult e r) := by
  refine ⟨?_, ?_, ?_, ?_⟩
  · intro hs
    rw [recordResult]
    simp only [hs, if_true]
    rw [if_neg (by omega)]
  · intro hs
    rw [recordResult]
    simp only [hs, Bool.false_eq_true, if_false]
    by_cases hred : e.maxFailures ≤ e.failures + 1
    · rw [if_pos hred]
    · rw [if_neg hred]
  · rw [recordResult]
    cases hs : r.success with
    | true =>
      simp only [if_true]
      rw [if_neg (by omega)]
      dsimp only
      constructor
      · intro hco
        cases hch : changesScreen r.action <;> simp [hch, EngineState.isError] at hco
      · intro hco
        exact absurd hco (by omega)
    | false =>
      simp only [Bool.false_eq_true, if_false]
      by_cases hred : e.maxFailures ≤ e.failures + 1
      · rw [if_pos hred]
        dsimp only
        constructor
        · intro _
          omega
        · intro _
          rfl
      · rw [if_neg hred]
        dsimp only
        constructor
        · intro hco
          cases hch : changesScreen r.action <;> simp [hch, EngineState.isError] at hco
        · intro hco
          exact absurd hco (by omega)
  · intro a ev hst hstop hev
    subst hev
    rw [engineStep, if_neg (by simp [hstop])]
    rw [engineStepGo]
    · exact a
    · exact hst

theorem C1_witness :
    ((recordResult ⟨.Executing (.wait 500), "g", 2, 3, fun _ => false, false⟩
        ⟨.wait 500, false, none, 0⟩).failures = 2 + 1)
    ∧ (recordResult ⟨.Executing (.wait 500), "g", 2, 3, fun _ => false, false⟩
        ⟨.wait 500, false, none, 0⟩).state.isError = true :=
  have h := C1_failure_counter ⟨.Executing (.wait 500), "g", 2, 3, fun _ => false, false⟩
    ⟨.wait 500, false, none, 0⟩ (by norm_num) (by norm_num)
  ⟨h.2.1 rfl, h.2.2.1.2 (by rw [h.2.1 rfl])⟩

lemma engineStep_stopped (e : Engine) (ev : EngineEvent) (h : e.stopRequested = true) :
    engineStep e ev = { e with state := stopResolve e.state } := by
  rw [engineStep, if_pos h]

lemma stopResolve_isIdle_of_waiting (s : EngineState)
    (h : (∃ a, s = .AwaitingApproval a) ∨ (∃ a, s = .AwaitingStability a)) :
    stopResolve s = .Idle := by
  rcases h with ⟨a, rfl⟩ | ⟨a, rfl⟩ <;> rfl

/-- Claim C8: if `stop()` was issued while the engine is in
`AwaitingApproval` or `AwaitingStability`, then along every further event
sequence the run never enters `Executing` again, and after any first
boundary event it has reached `Idle` (hence `Idle` or `Error`). -/
theorem C8_stop_while_waiting (e : Engine)
    (hstop : e.stopRequested = true)
    (hwait : (∃ a, e.state = .AwaitingApproval a) ∨ (∃ a, e.state = .AwaitingStability a)) :
    (∀ evs : List EngineEvent, (engineRun e evs).state.isExecuting = false)
    ∧ (∀ evs : List EngineEvent, evs ≠ [] →
        (engineRun e evs).state = .Idle ∨ (engineRun e evs).state.isError = true) := by
  have hidle : ∀ (e' : Engine) (evs : List EngineEvent),
      e'.stopRequested = true → e'.state = .Idle → engineRun e' evs = e' := by
    intro e' evs
    induction evs generalizing e' with
    | nil => intro _ _; rfl
    | cons ev evs ih =>
      intro hs hi
      rw [engineRun, engineStep_stopped e' ev hs, hi]
      have : ({ e' with state := stopResolve .Idle } : Engine) = e' := by
        show ({ e' with state := .Idle } : Engine) = e'
        rw [← hi]
      rw [this]
      exact ih e' hs hi
  constructor
  · intro evs
    cases evs with
    | nil =>
      rcases hwait with ⟨a, ha⟩ | ⟨a, ha⟩ <;> simp [engineRun, ha, EngineState.isExecuting]
    | cons ev evs =>
      rw [engineRun, engineStep_stopped e ev hstop, stopResolve_isIdle_of_waiting _ hwait]
      have h2 := hidle { e with state := EngineState.Idle } evs hstop rfl
      rw [h2]
      rfl
  · intro evs hne
    cases evs with
    | nil => exact absurd rfl hne
    | cons ev evs =>
      left
      rw [engineRun, engineStep_stopped e ev hstop, stopResolve_isIdle_of_waiting _ hwait]
      have h2 := hidle { e with state := EngineState.Idle } evs hstop rfl
      rw [h2]

theorem C8_witness :
    (engineRun ⟨.AwaitingApproval (.execute_terminal "shutdown" "asked"), "g", 0, 3,
        fun _ => true, true⟩ [.approval true]).state.isExecuting = false
    ∧ ((engineRun ⟨.AwaitingApproval (.execute_terminal "shutdown" "asked"), "g", 0, 3,
        fun _ => true, true⟩ [.approval true]).state = .Idle
      ∨ (engineRun ⟨.AwaitingApproval (.execute_terminal "shutdown" "asked"), "g", 0, 3,
        fun _ => true, true⟩ [.approval true]).state.isError = true) :=
  have h := C8_stop_while_waiting
    ⟨.AwaitingApproval (.execute_terminal "shutdown" "asked"), "g", 0, 3, fun _ => true, true⟩
    rfl (Or.inl ⟨.execute_terminal "shutdown" "asked", rfl⟩)
  ⟨h.1 [.approval true], h.2 [.approval true] (by simp)⟩

end SeeClaw
